import Mathlib

/-!
Verification of the `lil-gamae` game server (src/main.go, first file version:
the one with the `Dead` flag, collision detection and the round reset).

Shallow embedding conventions:
* Go `float64` coordinates are modelled as `ℚ` (the claims under scrutiny only
  involve exact comparisons and assignments of client-supplied values).
* Go `time.Time` is modelled as an absolute `ℤ` timestamp in nanoseconds;
  `now.After(t)` is `now > t` and `now.Add(5 * time.Second)` is
  `now + 5 * 1000000000`.
* The Go maps `gameState.Players` / `gameState.Projectiles` are modelled as
  lists; Go's map iteration order is unspecified, the list order stands for
  one arbitrary but fixed iteration order.
* The per-connection message loop of `handleConn` acts on the connection's
  player record and the projectile map; `onMessage` mirrors one loop body
  (src/main.go lines 108-127).  Fresh UUIDs and the current time are passed
  in as parameters.
-/

set_option autoImplicit false

namespace Gamae

/-- Player record (src/main.go lines 14-20); the websocket handle is omitted,
`Dead` is the `dead` field. -/
structure Player where
  id : String
  x : ℚ
  y : ℚ
  dead : Bool
deriving DecidableEq

/-- Projectile record (src/main.go lines 22-31). -/
structure Projectile where
  id : String
  owner : String
  x : ℚ
  y : ℚ
  dx : ℚ
  dy : ℚ
  speed : ℚ
  expiry : ℤ
deriving DecidableEq

/-- Move sub-message (src/main.go lines 33-36). -/
structure Move where
  x : ℚ
  y : ℚ
deriving DecidableEq

/-- Shoot sub-message (src/main.go lines 38-41). -/
structure Shoot where
  dx : ℚ
  dy : ℚ
deriving DecidableEq

/-- Client action: both sub-fields always present (src/main.go lines 43-46). -/
structure ClientAction where
  move : Move
  shoot : Shoot
deriving DecidableEq

/-- The two maps of `GameState` (src/main.go lines 49-53); the mutex is
irrelevant to the sequential embedding. -/
structure GameState where
  players : List Player
  projectiles : List Projectile
deriving DecidableEq

/-- `5 * time.Second` in nanoseconds (src/main.go line 123). -/
def projectileTTL : ℤ := 5 * 1000000000

/-- The server-configured projectile speed (src/main.go line 122). -/
def projectileSpeed : ℚ := 15

/-- The spawn position used on connect and on round reset. -/
def spawnX : ℚ := 50

/-- The spawn y coordinate. -/
def spawnY : ℚ := 50

/-- `move.X != 0 || move.Y != 0` (src/main.go line 109). -/
def moveNonzero (m : Move) : Bool :=
  !decide (m.x = 0) || !decide (m.y = 0)

/-- `shoot.DX != 0 || shoot.DY != 0` (src/main.go line 113). -/
def shootNonzero (s : Shoot) : Bool :=
  !decide (s.dx = 0) || !decide (s.dy = 0)

/-- The move branch of the message loop (src/main.go lines 109-112): the
position is set to the supplied coordinates when some axis is nonzero. -/
def applyMove (p : Player) (m : Move) : Player :=
  if moveNonzero m then { p with x := m.x, y := m.y } else p

/-- The projectile literal built by the shoot branch (src/main.go lines
115-124). -/
def mkProjectile (freshId : String) (p : Player) (s : Shoot) (now : ℤ) :
    Projectile :=
  { id := freshId, owner := p.id, x := p.x, y := p.y, dx := s.dx, dy := s.dy,
    speed := projectileSpeed, expiry := now + projectileTTL }

/-- One body of the `handleConn` message loop (src/main.go lines 108-127):
apply the move (if nonzero), then the shoot (if nonzero) at the already
updated position.  Returns the updated player record and projectile map. -/
def onMessage (p : Player) (projs : List Projectile) (act : ClientAction)
    (freshId : String) (now : ℤ) : Player × List Projectile :=
  let p2 := applyMove p act.move
  if shootNonzero act.shoot then
    (p2, projs ++ [mkProjectile freshId p2 act.shoot now])
  else
    (p2, projs)

/-- Iterated message loop: each element carries the action, the fresh
projectile id and the arrival time. -/
def runMessages (p : Player) (projs : List Projectile) :
    List (ClientAction × String × ℤ) → Player × List Projectile
  | [] => (p, projs)
  | m :: rest =>
      let st := onMessage p projs m.1 m.2.1 m.2.2
      runMessages st.1 st.2 rest

/-- The collision test of `updateProjectiles` (src/main.go line 209):
`player.X-40 < proj.X && proj.X < player.X+40 && player.Y-40 < proj.Y &&
proj.Y < player.Y+40`. -/
def overlaps (pl : Player) (pr : Projectile) : Bool :=
  decide (pl.x - 40 < pr.x) && decide (pr.x < pl.x + 40) &&
    decide (pl.y - 40 < pr.y) && decide (pr.y < pl.y + 40)

/-- Advancing a projectile one tick (src/main.go lines 203-204):
`proj.X += proj.DX * proj.Speed; proj.Y += proj.DY * proj.Speed`. -/
def advance (pr : Projectile) : Projectile :=
  { pr with x := pr.x + pr.dx * pr.speed, y := pr.y + pr.dy * pr.speed }

/-- The inner player loop of `updateProjectiles` (src/main.go lines 205-214):
skip the owner, mark the first overlapping player dead and stop (`break`).
Returns the updated player list and whether a hit consumed the projectile. -/
def collide (o : String) (pr : Projectile) : List Player → List Player × Bool
  | [] => ([], false)
  | pl :: rest =>
      if pl.id = o then
        let r := collide o pr rest
        (pl :: r.1, r.2)
      else if overlaps pl pr then
        ({ pl with dead := true } :: rest, true)
      else
        let r := collide o pr rest
        (pl :: r.1, r.2)

/-- Processing of one projectile inside a physics tick (src/main.go lines
197-215): if `now.After(expiry)` it is dropped (neither advanced nor
collision-tested); otherwise it is advanced and collision-tested, and kept
only when no hit occurred.  The accumulator holds the current player list and
the projectiles surviving the tick so far. -/
def stepProj (now : ℤ) (st : List Player × List Projectile) (pr : Projectile) :
    List Player × List Projectile :=
  if now > pr.expiry then st
  else
    let pr2 := advance pr
    let r := collide pr2.owner pr2 st.1
    if r.2 then (r.1, st.2) else (r.1, st.2 ++ [pr2])

/-- One full physics tick of `updateProjectiles` (src/main.go lines 190-219). -/
def updateProjectiles (now : ℤ) (ps : List Player) (qs : List Projectile) :
    List Player × List Projectile :=
  qs.foldl (stepProj now) (ps, [])

/-- Survivor count of the broadcast tick (src/main.go lines 159-164). -/
def stillAlive (ps : List Player) : Nat :=
  ps.countP (fun p => !p.dead)

/-- The reset applied to one player (src/main.go lines 181-183). -/
def resetPlayer (p : Player) : Player :=
  { p with dead := false, x := spawnX, y := spawnY }

/-- The round-reset mutation (src/main.go lines 180-184): every player is
revived at the spawn point; the projectile map is not touched. -/
def resetRound (gs : GameState) : GameState :=
  { players := gs.players.map resetPlayer, projectiles := gs.projectiles }

/-- The store mutation of one broadcast tick (src/main.go lines 159-186): the
reset runs exactly when the survivor count equals 1; the 3-second sleep and
the network sends do not change the store. -/
def broadcastTick (gs : GameState) : GameState :=
  if stillAlive gs.players = 1 then resetRound gs else gs

/-- The last move in a list of actions having a nonzero axis, if any. -/
def lastNonzeroMove : List ClientAction → Option Move
  | [] => none
  | a :: rest =>
      match lastNonzeroMove rest with
      | some m => some m
      | none => if moveNonzero a.move then some a.move else none

/-- Number of players freshly marked dead between two snapshots of the player
list (positionally compared). -/
def newlyDead (before after : List Player) : Nat :=
  (before.zip after).countP (fun x => !x.1.dead && x.2.dead)

theorem newlyDead_self (l : List Player) : newlyDead l l = 0 := by
  induction l with
  | nil => rfl
  | cons a t ih => simp [newlyDead, List.countP_cons] at ih ⊢; exact ih

theorem mem_zip_self (l : List Player) : ∀ x ∈ l.zip l, x.2 = x.1 := by
  induction l with
  | nil => simp
  | cons a t ih =>
      intro x hx
      simp only [List.zip_cons_cons, List.mem_cons] at hx
      rcases hx with hx | hx
      · rw [hx]
      · exact ih x hx

theorem collide_cons_owner (o : String) (pr : Projectile) (pl : Player)
    (rest : List Player) (h : pl.id = o) :
    collide o pr (pl :: rest) =
      (pl :: (collide o pr rest).1, (collide o pr rest).2) := by
  simp [collide, h]

theorem collide_cons_hit (o : String) (pr : Projectile) (pl : Player)
    (rest : List Player) (h : ¬ pl.id = o) (hov : overlaps pl pr = true) :
    collide o pr (pl :: rest) = ({ pl with dead := true } :: rest, true) := by
  simp [collide, h, hov]

theorem collide_cons_miss (o : String) (pr : Projectile) (pl : Player)
    (rest : List Player) (h : ¬ pl.id = o) (hov : overlaps pl pr = false) :
    collide o pr (pl :: rest) =
      (pl :: (collide o pr rest).1, (collide o pr rest).2) := by
  simp [collide, h, hov]

theorem collide_no_hit_id (o : String) (pr : Projectile) (ps : List Player)
    (h : (collide o pr ps).2 = false) : (collide o pr ps).1 = ps := by
  induction ps with
  | nil => rfl
  | cons pl rest ih =>
      by_cases hpl : pl.id = o
      · rw [collide_cons_owner o pr pl rest hpl] at h ⊢
        simp only at h ⊢
        rw [ih h]
      · cases hov : overlaps pl pr with
        | true => rw [collide_cons_hit o pr pl rest hpl hov] at h; simp at h
        | false =>
            rw [collide_cons_miss o pr pl rest hpl hov] at h ⊢
            simp only at h ⊢
            rw [ih h]

theorem collide_newlyDead_le_one (o : String) (pr : Projectile)
    (ps : List Player) : newlyDead ps (collide o pr ps).1 ≤ 1 := by
  induction ps with
  | nil => simp [collide, newlyDead]
  | cons pl rest ih =>
      by_cases hpl : pl.id = o
      · rw [collide_cons_owner o pr pl rest hpl]
        simpa [newlyDead, List.countP_cons] using ih
      · cases hov : overlaps pl pr with
        | true =>
            rw [collide_cons_hit o pr pl rest hpl hov]
            have hz := newlyDead_self rest
            simp only [newlyDead] at hz ⊢
            rw [List.zip_cons_cons, List.countP_cons, hz]
            split <;> simp
        | false =>
            rw [collide_cons_miss o pr pl rest hpl hov]
            simpa [newlyDead, List.countP_cons] using ih

/-- C7 (confirmed): the collision overlap test uses strict inequalities on
both axes, so it is exactly `|player.x - proj.x| < 40 ∧ |player.y - proj.y|
< 40`, and an offset of exactly 40 on either axis is not an overlap. -/
theorem overlap_uses_strict_inequalities (pl : Player) (pr : Projectile) :
    (overlaps pl pr = true ↔ |pl.x - pr.x| < 40 ∧ |pl.y - pr.y| < 40) ∧
    (|pl.x - pr.x| = 40 ∨ |pl.y - pr.y| = 40 → overlaps pl pr = false) := by
  have hiff : overlaps pl pr = true ↔ |pl.x - pr.x| < 40 ∧ |pl.y - pr.y| < 40 := by
    simp only [overlaps, Bool.and_eq_true, decide_eq_true_eq, abs_sub_lt_iff]
    constructor
    · rintro ⟨⟨⟨h1, h2⟩, h3⟩, h4⟩
      exact ⟨⟨by linarith, by linarith⟩, by linarith, by linarith⟩
    · rintro ⟨⟨h1, h2⟩, h3, h4⟩
      exact ⟨⟨⟨by linarith, by linarith⟩, by linarith⟩, by linarith⟩
  refine ⟨hiff, ?_⟩
  intro h
  rw [← Bool.not_eq_true]
  intro hov
  rcases h with h | h
  · have hlt := (hiff.mp hov).1
    rw [h] at hlt
    exact lt_irrefl _ hlt
  · have hlt := (hiff.mp hov).2
    rw [h] at hlt
    exact lt_irrefl _ hlt

/-- Witness for C7: a player offset by exactly 40 in x is not hit. -/
theorem overlap_uses_strict_inequalities_witness :
    overlaps ⟨"b", 90, 50, false⟩ ⟨"q", "a", 50, 50, 1, 0, 15, 0⟩ = false :=
  (overlap_uses_strict_inequalities ⟨"b", 90, 50, false⟩
      ⟨"q", "a", 50, 50, 1, 0, 15, 0⟩).2 (Or.inl (by norm_num))

/-- C8 (confirmed): a projectile's owner is skipped by the collision pass:
every player record whose id equals the owner id is returned unchanged
(never marked dead), and when only owner-id players are present the
projectile is never consumed, whatever the positions. -/
theorem owner_is_never_hit (o : String) (pr : Projectile) (ps : List Player) :
    (∀ x ∈ ps.zip (collide o pr ps).1, x.1.id = o → x.2 = x.1) ∧
    ((∀ pl ∈ ps, pl.id = o) → collide o pr ps = (ps, false)) := by
  induction ps with
  | nil => exact ⟨by simp, by simp [collide]⟩
  | cons pl rest ih =>
      constructor
      · by_cases hpl : pl.id = o
        · rw [collide_cons_owner o pr pl rest hpl]
          intro x hx hid
          simp only [List.zip_cons_cons, List.mem_cons] at hx
          rcases hx with hx | hx
          · rw [hx]
          · exact ih.1 x hx hid
        · cases hov : overlaps pl pr with
          | true =>
              rw [collide_cons_hit o pr pl rest hpl hov]
              intro x hx hid
              simp only [List.zip_cons_cons, List.mem_cons] at hx
              rcases hx with hx | hx
              · rw [hx] at hid; exact absurd hid hpl
              · exact mem_zip_self rest x hx
          | false =>
              rw [collide_cons_miss o pr pl rest hpl hov]
              intro x hx hid
              simp only [List.zip_cons_cons, List.mem_cons] at hx
              rcases hx with hx | hx
              · rw [hx]
              · exact ih.1 x hx hid
      · intro hall
        have hpl : pl.id = o := hall pl (by simp)
        rw [collide_cons_owner o pr pl rest hpl]
        have := ih.2 (fun q hq => hall q (by simp [hq]))
        rw [this]

/-- Witness for C8: a projectile sitting exactly on its owner does not hit. -/
theorem owner_is_never_hit_witness :
    collide "a" ⟨"q", "a", 50, 50, 1, 0, 15, 0⟩ [⟨"a", 50, 50, false⟩] =
      ([⟨"a", 50, 50, false⟩], false) :=
  (owner_is_never_hit "a" ⟨"q", "a", 50, 50, 1, 0, 15, 0⟩
      [⟨"a", 50, 50, false⟩]).2 (by intro pl hpl; simp at hpl; rw [hpl])

/-- Counterexample for C2: player `b` is already dead (`alive=false`), is not
the owner, and merely overlaps the advanced projectile; the tick still
consumes the projectile on `b` (the second component becomes `[]` even though
the projectile is far from expiry), contradicting the claim that a dead
player can never consume a projectile. -/
theorem dead_player_consumes_projectile :
    updateProjectiles 0 [⟨"b", 50, 50, true⟩]
        [⟨"q", "a", 10, 50, 1, 0, 15, 100⟩] =
      ([⟨"b", 50, 50, true⟩], []) := by
  norm_num [updateProjectiles, stepProj, advance, collide, overlaps,
    (by decide : ¬ (("b" : String) = "a"))]

/-- C2 (corrected): the collision pass never consults the `dead` flag: a
projectile is consumed exactly when some player other than the owner —
dead or alive — overlaps it. -/
theorem hit_iff_nonowner_overlaps (o : String) (pr : Projectile)
    (ps : List Player) :
    (collide o pr ps).2 = true ↔ ∃ pl ∈ ps, pl.id ≠ o ∧ overlaps pl pr = true := by
  induction ps with
  | nil => simp [collide]
  | cons pl rest ih =>
      by_cases hpl : pl.id = o
      · rw [collide_cons_owner o pr pl rest hpl]
        simp only [List.mem_cons]
        constructor
        · intro h
          obtain ⟨q, hq, hqo, hqov⟩ := ih.mp h
          exact ⟨q, Or.inr hq, hqo, hqov⟩
        · rintro ⟨q, hq | hq, hqo, hqov⟩
          · rw [hq] at hqo; exact absurd hpl hqo
          · exact ih.mpr ⟨q, hq, hqo, hqov⟩
      · cases hov : overlaps pl pr with
        | true =>
            rw [collide_cons_hit o pr pl rest hpl hov]
            simp only [List.mem_cons]
            constructor
            · intro _
              exact ⟨pl, Or.inl rfl, hpl, hov⟩
            · intro _
              trivial
        | false =>
            rw [collide_cons_miss o pr pl rest hpl hov]
            simp only [List.mem_cons]
            constructor
            · intro h
              obtain ⟨q, hq, hqo, hqov⟩ := ih.mp h
              exact ⟨q, Or.inr hq, hqo, hqov⟩
            · rintro ⟨q, hq | hq, hqo, hqov⟩
              · rw [hq] at hqov; rw [hov] at hqov; exact absurd hqov (by simp)
              · exact ih.mpr ⟨q, hq, hqo, hqov⟩

/-- Witness for C2's corrected statement: a dead non-owner overlapping player
does register as a hit. -/
theorem hit_iff_nonowner_overlaps_witness :
    (collide "a" ⟨"q", "a", 25, 50, 1, 0, 15, 100⟩ [⟨"b", 50, 50, true⟩]).2 = true :=
  (hit_iff_nonowner_overlaps "a" ⟨"q", "a", 25, 50, 1, 0, 15, 100⟩
      [⟨"b", 50, 50, true⟩]).mpr
    ⟨⟨"b", 50, 50, true⟩, by simp, by decide, by norm_num [overlaps]⟩

theorem stepProj_expiry_le (now : ℤ) (st : List Player × List Projectile)
    (pr : Projectile) (h : ∀ q ∈ st.2, now ≤ q.expiry) :
    ∀ q ∈ (stepProj now st pr).2, now ≤ q.expiry := by
  by_cases hexp : now > pr.expiry
  · simp only [stepProj, if_pos hexp]
    exact h
  · simp only [stepProj, if_neg hexp]
    by_cases hhit : (collide (advance pr).owner (advance pr) st.1).2 = true
    · simp only [hhit, if_pos]
      exact h
    · rw [Bool.not_eq_true] at hhit
      simp only [hhit, Bool.false_eq_true, if_neg, not_false_iff]
      intro q hq
      rcases List.mem_append.mp hq with hq | hq
      · exact h q hq
      · rw [List.mem_singleton] at hq
        rw [hq]
        show now ≤ pr.expiry
        exact le_of_not_lt hexp

theorem foldl_stepProj_expiry_le (now : ℤ) (qs : List Projectile)
    (st : List Player × List Projectile) (h : ∀ q ∈ st.2, now ≤ q.expiry) :
    ∀ q ∈ (qs.foldl (stepProj now) st).2, now ≤ q.expiry := by
  induction qs generalizing st with
  | nil => exact h
  | cons pr rest ih => exact ih (stepProj now st pr) (stepProj_expiry_le now st pr h)

/-- C3 (corrected): expiry removal uses `now.After(expiry)`, i.e. strict
inequality, so after a tick every surviving projectile satisfies
`now ≤ expiry`: a projectile is dropped at every tick whose time is strictly
past its expiry, but one whose expiry equals the tick's time exactly is kept
(see the counterexample). -/
theorem surviving_projectile_not_strictly_expired (now : ℤ) (ps : List Player)
    (qs : List Projectile) :
    ∀ q ∈ (updateProjectiles now ps qs).2, now ≤ q.expiry :=
  foldl_stepProj_expiry_le now qs (ps, []) (by simp)

/-- Witness for C3's corrected statement: a live projectile surviving the
tick has its expiry in the future. -/
theorem surviving_projectile_not_strictly_expired_witness :
    (0 : ℤ) ≤ (advance ⟨"q", "o", 0, 0, 0, 1, 15, 7⟩).expiry :=
  surviving_projectile_not_strictly_expired 0 [] [⟨"q", "o", 0, 0, 0, 1, 15, 7⟩]
    (advance ⟨"q", "o", 0, 0, 0, 1, 15, 7⟩)
    (by norm_num [updateProjectiles, stepProj, collide])

/-- Counterexample for C3: at `now = 0` a projectile with `expiry = 0`
(`now >= expiry` holds with equality) is NOT removed: it is advanced
(`x` moves from 0 to 15) and persists in the store after the tick, because
the code tests `now.After(expiry)`, a strict comparison. -/
theorem projectile_at_exact_expiry_persists :
    (updateProjectiles 0 [] [⟨"q", "o", 0, 0, 1, 0, 15, 0⟩]).2 =
      [⟨"q", "o", 15, 0, 1, 0, 15, 0⟩] := by
  norm_num [updateProjectiles, stepProj, advance, collide, overlaps]

/-- Counterexample for C1: the store holds exactly one player in total, alive
at (10,20); the claim says no reset may ever trigger, yet the broadcast tick
runs the reset (the player is snapped back to the spawn point (50,50)),
because the code only tests `stillAlive == 1` and never the total player
count. -/
theorem single_player_store_triggers_reset :
    broadcastTick ⟨[⟨"a", 10, 20, false⟩], []⟩ = ⟨[⟨"a", 50, 50, false⟩], []⟩ := by
  norm_num [broadcastTick, stillAlive, resetRound, resetPlayer, spawnX, spawnY]

/-- C1 (corrected): the reset triggers exactly when the count of players with
`alive=true` equals 1, with no requirement on the total player count; in
particular a store holding a single living player (no one else present)
resets every broadcast tick. -/
theorem reset_triggers_iff_one_alive (gs : GameState) :
    (stillAlive gs.players = 1 → broadcastTick gs = resetRound gs) ∧
    (stillAlive gs.players ≠ 1 → broadcastTick gs = gs) ∧
    (∀ p : Player, p.dead = false →
      broadcastTick ⟨[p], gs.projectiles⟩ = resetRound ⟨[p], gs.projectiles⟩) := by
  refine ⟨fun h => by simp [broadcastTick, h], fun h => by simp [broadcastTick, h], ?_⟩
  intro p hp
  have h1 : stillAlive [p] = 1 := by simp [stillAlive, List.countP_cons, hp]
  simp [broadcastTick, h1]

/-- Witness for C1's corrected statement: one living player alone in the
store makes the broadcast tick run the reset. -/
theorem reset_triggers_iff_one_alive_witness :
    broadcastTick ⟨[⟨"a", 10, 20, false⟩], []⟩ =
      resetRound ⟨[⟨"a", 10, 20, false⟩], []⟩ :=
  (reset_triggers_iff_one_alive ⟨[], []⟩).2.2 ⟨"a", 10, 20, false⟩ rfl

/-- C9 (confirmed): the round reset leaves the projectile map untouched,
keeps exactly the same players (same ids, in order), and sets every player
alive at the spawn point (50,50). -/
theorem reset_revives_all_at_spawn (gs : GameState) :
    (resetRound gs).projectiles = gs.projectiles ∧
    (resetRound gs).players.map Player.id = gs.players.map Player.id ∧
    ∀ p ∈ (resetRound gs).players, p.dead = false ∧ p.x = 50 ∧ p.y = 50 := by
  refine ⟨rfl, ?_, ?_⟩
  · show (gs.players.map resetPlayer).map Player.id = gs.players.map Player.id
    rw [List.map_map]
    rfl
  · intro p hp
    simp only [resetRound, List.mem_map] at hp
    obtain ⟨q, _, hq⟩ := hp
    rw [← hq]
    exact ⟨rfl, rfl, rfl⟩

/-- Witness for C9: a dead player away from spawn is revived at (50,50). -/
theorem reset_revives_all_at_spawn_witness :
    (resetPlayer ⟨"a", 1, 2, true⟩).dead = false ∧
      (resetPlayer ⟨"a", 1, 2, true⟩).x = 50 ∧
      (resetPlayer ⟨"a", 1, 2, true⟩).y = 50 :=
  (reset_revives_all_at_spawn ⟨[⟨"a", 1, 2, true⟩], []⟩).2.2
    (resetPlayer ⟨"a", 1, 2, true⟩) (by simp [resetRound])

/-- C6 (confirmed): inside one physics tick a projectile has exactly one
fate: an expired projectile is dropped with the players untouched (neither
advanced nor collision-tested); otherwise it either survives (appended once,
players untouched) or is consumed by its first hit, and in every case at most
one player is newly marked dead by it. -/
theorem projectile_removed_at_most_once (now : ℤ) (ps : List Player)
    (qs : List Projectile) (pr : Projectile) :
    ((stepProj now (ps, qs) pr).2 = qs ∨
      (stepProj now (ps, qs) pr).2 = qs ++ [advance pr]) ∧
    newlyDead ps (stepProj now (ps, qs) pr).1 ≤ 1 ∧
    (now > pr.expiry → stepProj now (ps, qs) pr = (ps, qs)) ∧
    ((stepProj now (ps, qs) pr).2 = qs ++ [advance pr] →
      (stepProj now (ps, qs) pr).1 = ps) := by
  by_cases hexp : now > pr.expiry
  · have hstep : stepProj now (ps, qs) pr = (ps, qs) := by
      simp [stepProj, hexp]
    rw [hstep]
    exact ⟨Or.inl rfl, by simp [newlyDead_self], fun _ => rfl, fun _ => rfl⟩
  · by_cases hhit : (collide (advance pr).owner (advance pr) ps).2 = true
    · have hstep : stepProj now (ps, qs) pr =
          ((collide (advance pr).owner (advance pr) ps).1, qs) := by
        simp [stepProj, hexp, hhit]
      rw [hstep]
      refine ⟨Or.inl rfl, collide_newlyDead_le_one _ _ _, fun h => absurd h hexp, ?_⟩
      intro h
      have hlen := congrArg List.length h
      simp at hlen
    · rw [Bool.not_eq_true] at hhit
      have hstep : stepProj now (ps, qs) pr =
          ((collide (advance pr).owner (advance pr) ps).1, qs ++ [advance pr]) := by
        simp [stepProj, hexp, hhit]
      rw [hstep]
      refine ⟨Or.inr rfl, ?_, fun h => absurd h hexp, fun _ => ?_⟩
      · rw [collide_no_hit_id _ _ _ hhit]
        simp [newlyDead_self]
      · exact collide_no_hit_id _ _ _ hhit

/-- Witness for C6: an expired projectile is dropped leaving the store
untouched. -/
theorem projectile_removed_at_most_once_witness :
    stepProj 1 ([], []) ⟨"q", "o", 0, 0, 1, 0, 15, 0⟩ = ([], []) :=
  (projectile_removed_at_most_once 1 [] [] ⟨"q", "o", 0, 0, 1, 0, 15, 0⟩).2.2.1
    (by norm_num)

theorem onMessage_fst (p : Player) (projs : List Projectile) (a : ClientAction)
    (freshId : String) (now : ℤ) :
    (onMessage p projs a freshId now).1 = applyMove p a.move := by
  simp only [onMessage]
  split <;> rfl

/-- C4 (confirmed): after any sequence of messages the player's position is
exactly the last supplied move vector having a nonzero axis (or the starting
position when there is none): moves overwrite, they never accumulate, and
all-zero moves are ignored. -/
theorem position_equals_last_nonzero_move (p : Player)
    (projs : List Projectile) (msgs : List (ClientAction × String × ℤ)) :
    ((runMessages p projs msgs).1.x, (runMessages p projs msgs).1.y) =
      (match lastNonzeroMove (msgs.map Prod.fst) with
        | some m => (m.x, m.y)
        | none => (p.x, p.y)) := by
  induction msgs generalizing p projs with
  | nil => rfl
  | cons m rest ih =>
      simp only [runMessages, List.map_cons, lastNonzeroMove]
      rw [ih]
      cases hrest : lastNonzeroMove (rest.map Prod.fst) with
      | some mv => rfl
      | none =>
          rw [onMessage_fst]
          simp only [applyMove]
          by_cases hm : moveNonzero m.1.move = true
          · simp only [hm, if_pos]
          · rw [Bool.not_eq_true] at hm
            simp only [hm, Bool.false_eq_true, if_neg, not_false_iff]

/-- Witness for C4: after a move to (1,2), a move to (3,4) and an all-zero
move, the position is (3,4). -/
theorem position_equals_last_nonzero_move_witness :
    ((runMessages ⟨"a", 50, 50, false⟩ []
        [(⟨⟨1, 2⟩, ⟨0, 0⟩⟩, "i1", 0), (⟨⟨3, 4⟩, ⟨0, 0⟩⟩, "i2", 0),
          (⟨⟨0, 0⟩, ⟨0, 0⟩⟩, "i3", 0)]).1.x,
      (runMessages ⟨"a", 50, 50, false⟩ []
        [(⟨⟨1, 2⟩, ⟨0, 0⟩⟩, "i1", 0), (⟨⟨3, 4⟩, ⟨0, 0⟩⟩, "i2", 0),
          (⟨⟨0, 0⟩, ⟨0, 0⟩⟩, "i3", 0)]).1.y) = ((3 : ℚ), (4 : ℚ)) := by
  have h := position_equals_last_nonzero_move ⟨"a", 50, 50, false⟩ []
    [(⟨⟨1, 2⟩, ⟨0, 0⟩⟩, "i1", 0), (⟨⟨3, 4⟩, ⟨0, 0⟩⟩, "i2", 0),
      (⟨⟨0, 0⟩, ⟨0, 0⟩⟩, "i3", 0)]
  rw [h]
  norm_num [lastNonzeroMove, moveNonzero]

theorem applyMove_id (p : Player) (m : Move) : (applyMove p m).id = p.id := by
  simp only [applyMove]
  split <;> rfl

/-- C5 (confirmed): an all-zero shoot creates no projectile; a shoot with a
nonzero axis appends exactly one projectile, owned by the sender, placed at
the sender's position as already updated by the move of the same message,
with the supplied direction and expiry = arrival time + 5 seconds. -/
theorem shoot_spawns_exactly_one_projectile (p : Player)
    (projs : List Projectile) (a : ClientAction) (freshId : String) (now : ℤ) :
    ((a.shoot.dx = 0 ∧ a.shoot.dy = 0) →
      (onMessage p projs a freshId now).2 = projs) ∧
    (¬(a.shoot.dx = 0 ∧ a.shoot.dy = 0) →
      ∃ q : Projectile,
        (onMessage p projs a freshId now).2 = projs ++ [q] ∧
        q.owner = p.id ∧
        q.x = (onMessage p projs a freshId now).1.x ∧
        q.y = (onMessage p projs a freshId now).1.y ∧
        q.dx = a.shoot.dx ∧ q.dy = a.shoot.dy ∧
        q.expiry = now + projectileTTL) := by
  have hz : shootNonzero a.shoot = false ↔ (a.shoot.dx = 0 ∧ a.shoot.dy = 0) := by
    simp [shootNonzero]
  constructor
  · intro h
    have hs := hz.mpr h
    simp only [onMessage, hs, Bool.false_eq_true, if_neg, not_false_iff]
  · intro h
    have hs : shootNonzero a.shoot = true := by
      cases hq : shootNonzero a.shoot
      · exact absurd (hz.mp hq) h
      · rfl
    refine ⟨mkProjectile freshId (applyMove p a.move) a.shoot now, ?_, ?_, ?_, ?_, rfl, rfl, rfl⟩
    · simp only [onMessage, hs, if_pos]
    · exact applyMove_id p a.move
    · rw [onMessage_fst]; rfl
    · rw [onMessage_fst]; rfl

/-- Witness for C5: shooting (1,0) from spawn after a move to (3,4) in the
same message creates one projectile at (3,4) owned by the sender. -/
theorem shoot_spawns_exactly_one_projectile_witness :
    ∃ q : Projectile,
      (onMessage ⟨"a", 50, 50, false⟩ [] ⟨⟨3, 4⟩, ⟨1, 0⟩⟩ "i" 0).2 = [] ++ [q] ∧
      q.owner = "a" ∧
      q.x = (onMessage ⟨"a", 50, 50, false⟩ [] ⟨⟨3, 4⟩, ⟨1, 0⟩⟩ "i" 0).1.x ∧
      q.y = (onMessage ⟨"a", 50, 50, false⟩ [] ⟨⟨3, 4⟩, ⟨1, 0⟩⟩ "i" 0).1.y ∧
      q.dx = 1 ∧ q.dy = 0 ∧
      q.expiry = 0 + projectileTTL :=
  (shoot_spawns_exactly_one_projectile ⟨"a", 50, 50, false⟩ []
      ⟨⟨3, 4⟩, ⟨1, 0⟩⟩ "i" 0).2 (by norm_num)

/-- C10 (confirmed): the `dead` flag does not gate message handling: a dead
player's message is processed exactly as a living player's — same position
update, same projectile creation — only the carried `dead` flag differs. -/
theorem dead_does_not_gate_messages (p : Player) (projs : List Projectile)
    (a : ClientAction) (freshId : String) (now : ℤ) :
    (onMessage { p with dead := true } projs a freshId now).1 =
      { (onMessage { p with dead := false } projs a freshId now).1 with dead := true } ∧
    (onMessage { p with dead := true } projs a freshId now).2 =
      (onMessage { p with dead := false } projs a freshId now).2 := by
  constructor
  · rw [onMessage_fst, onMessage_fst]
    simp only [applyMove]
    by_cases hm : moveNonzero a.move = true
    · simp only [hm, if_pos]
    · rw [Bool.not_eq_true] at hm
      simp only [hm, Bool.false_eq_true, if_neg, not_false_iff]
  · simp only [onMessage]
    by_cases hs : shootNonzero a.shoot = true
    · simp only [hs, if_pos]
      simp only [mkProjectile, applyMove]
      by_cases hm : moveNonzero a.move = true
      · simp only [hm, if_pos]
      · rw [Bool.not_eq_true] at hm
        simp only [hm, Bool.false_eq_true, if_neg, not_false_iff]
    · rw [Bool.not_eq_true] at hs
      simp only [hs, Bool.false_eq_true, if_neg, not_false_iff]

end Gamae
